import Mathlib

/-!
Verification of the bzzz P2P task-coordination fabric.

Each Go component relevant to the verified properties is shallowly embedded
as executable Lean definitions; theorems at the end settle the stated
properties.  Maps keyed by strings or integers are modelled as association
lists, channels as bounded lists, wall-clock times as natural numbers, and
the external SHA-256/JSON hashing as an abstract function parameter.
-/

namespace Bzzz

/-! ## Go string helpers

`containsSubstring s sub` models Go `strings.Contains s sub`: `sub` occurs
contiguously inside `s`. -/

def containsSubstring (s sub : String) : Bool :=
  (List.range (s.toList.length + 1)).any (fun i => sub.toList.isPrefixOf (s.toList.drop i))

/-- ASCII case folding of one character, as Go `strings.ToLower` acts on the
ASCII-only keyword sets used by this system. -/
def toLowerChar (c : Char) : Char :=
  if 65 ≤ c.toNat ∧ c.toNat ≤ 90 then Char.ofNat (c.toNat + 32) else c

/-- Models Go `strings.ToLower`. -/
def toLowerGo (s : String) : String := ⟨s.data.map toLowerChar⟩

/-! ## Meta-discussion engine (github/integration.go, unnamed/part_011)

`escalationKeywords` and `conversationHistoryLimit` are the package-level
constants of the Go source; `shouldEscalate` is `Integration.shouldEscalate`. -/

def conversationHistoryLimit : Nat := 10

def escalationKeywords : List String :=
  ["stuck", "help", "human", "escalate", "clarification needed", "manual intervention"]

def shouldEscalate (response : String) (history : List String) : Bool :=
  let lowerResponse := toLowerGo response
  if escalationKeywords.any (fun keyword => containsSubstring lowerResponse keyword) then
    true
  else if history.length ≥ conversationHistoryLimit then
    true
  else
    false

end Bzzz

namespace Bzzz

/-! ## Hypercore-style verifiable log (logging package, src/test/README.md)

`LogEntry`, `HypercoreLog`, `Append`, `calculateEntryHash`, `createSignature`
and `VerifyIntegrity` mirror the Go code.  The composite
`sha256 ∘ json.Marshal` used by `calculateEntryHash` is abstracted as the
`entryHash` field of a `HashModel`; `calculateEntryHash` applies it to the
copy of the entry whose `hash` and `signature` fields are zeroed, exactly as
the Go function marshals `entryForHash`.  Timestamps are passed in by the
caller (the Go code reads `time.Now()`). -/

structure LogEntry where
  index : Nat
  timestamp : Nat
  author : String
  type : String
  data : List (String × String)
  hash : String
  prevHash : String
  signature : String
deriving DecidableEq, Repr, Inhabited

structure HashModel where
  entryHash : LogEntry → String
  sigHash : String → String → Nat → String

def calculateEntryHash (hm : HashModel) (entry : LogEntry) : String :=
  hm.entryHash { entry with hash := "", signature := "" }

def createSignature (hm : HashModel) (peerID : String) (entry : LogEntry) : String :=
  hm.sigHash peerID entry.hash entry.index

structure HypercoreLog where
  entries : List LogEntry
  peerID : String
  headHash : String
deriving Repr

def NewHypercoreLog (peerID : String) : HypercoreLog :=
  { entries := [], peerID := peerID, headHash := "" }

def Append (hm : HashModel) (h : HypercoreLog) (logType : String)
    (data : List (String × String)) (now : Nat) : HypercoreLog × LogEntry :=
  let index := h.entries.length
  let entry : LogEntry :=
    { index := index, timestamp := now, author := h.peerID, type := logType,
      data := data, hash := "", prevHash := h.headHash, signature := "" }
  let entryHash := calculateEntryHash hm entry
  let entry1 := { entry with hash := entryHash }
  let entry2 := { entry1 with signature := createSignature hm h.peerID entry1 }
  ({ h with entries := h.entries ++ [entry2], headHash := entryHash }, entry2)

def verifyLoop (hm : HashModel) (prevHash : String) (i : Nat) : List LogEntry → Option Nat
  | [] => none
  | entry :: rest =>
    if entry.prevHash != prevHash then some i
    else if entry.hash != calculateEntryHash hm entry then some i
    else verifyLoop hm entry.hash (i + 1) rest

def VerifyIntegrity (hm : HashModel) (h : HypercoreLog) : Option Nat :=
  verifyLoop hm "" 0 h.entries

/-- Runs a sequence of `Append` calls: each element gives the event type,
payload and the wall-clock instant of that call. -/
def appendAll (hm : HashModel) (h : HypercoreLog) :
    List (String × List (String × String) × Nat) → HypercoreLog
  | [] => h
  | (t, d, ts) :: rest => appendAll hm (Append hm h t d ts).1 rest

/-- Hash that the chain expects right before position `j` of `es`, when the
hash expected before the whole list is `prev`. -/
def prevAt (prev : String) (es : List LogEntry) : Nat → String
  | 0 => prev
  | k + 1 =>
    match es[k]? with
    | some e => e.hash
    | none => ""

def entryMismatch (hm : HashModel) (prev : String) (e : LogEntry) : Bool :=
  (e.prevHash != prev) || (e.hash != calculateEntryHash hm e)

/-- Position `j` of `es` violates the chain (given expected hash `prev`
before the list).  Out-of-range positions are fine. -/
def badAt (hm : HashModel) (prev : String) (es : List LogEntry) (j : Nat) : Bool :=
  match es[j]? with
  | none => false
  | some e => entryMismatch hm (prevAt prev es j) e

def lastHash (es : List LogEntry) : String :=
  match es.getLast? with
  | some e => e.hash
  | none => ""

/-- Internal invariant of a hypercore log built by `Append`. -/
def GoodLog (hm : HashModel) (h : HypercoreLog) : Prop :=
  (∀ j, badAt hm "" h.entries j = false) ∧ h.headHash = lastHash h.entries

theorem badAt_nil (hm : HashModel) (prev : String) (j : Nat) :
    badAt hm prev [] j = false := by
  simp [badAt]

theorem badAt_cons_zero (hm : HashModel) (prev : String) (e : LogEntry) (rest : List LogEntry) :
    badAt hm prev (e :: rest) 0 = entryMismatch hm prev e := by
  simp only [badAt, List.getElem?_cons_zero, prevAt]

theorem badAt_cons_succ (hm : HashModel) (prev : String) (e : LogEntry)
    (rest : List LogEntry) (j : Nat) :
    badAt hm prev (e :: rest) (j + 1) = badAt hm e.hash rest j := by
  cases j with
  | zero =>
    simp only [badAt, prevAt, List.getElem?_cons_succ, List.getElem?_cons_zero]
  | succ k =>
    simp only [badAt, prevAt, List.getElem?_cons_succ]

theorem verifyLoop_cons_found (hm : HashModel) (prev : String) (i : Nat) (e : LogEntry)
    (rest : List LogEntry) (hmis : entryMismatch hm prev e = true) :
    verifyLoop hm prev i (e :: rest) = some i := by
  rw [verifyLoop]
  by_cases hb1 : (e.prevHash != prev) = true
  · rw [if_pos hb1]
  · have hb2 : (e.hash != calculateEntryHash hm e) = true := by
      unfold entryMismatch at hmis
      rcases Bool.or_eq_true _ _ ▸ hmis with h | h
      · exact absurd h hb1
      · exact h
    rw [if_neg hb1, if_pos hb2]

theorem verifyLoop_cons_step (hm : HashModel) (prev : String) (i : Nat) (e : LogEntry)
    (rest : List LogEntry) (hmis : entryMismatch hm prev e = false) :
    verifyLoop hm prev i (e :: rest) = verifyLoop hm e.hash (i + 1) rest := by
  unfold entryMismatch at hmis
  have hb := Bool.or_eq_false_iff.mp hmis
  rw [verifyLoop]
  rw [if_neg (by simp [hb.1]), if_neg (by simp [hb.2])]

theorem verifyLoop_eq_some (hm : HashModel) (es : List LogEntry) :
    ∀ (prev : String) (i k : Nat),
      verifyLoop hm prev i es = some k ↔
        ∃ j, k = i + j ∧ badAt hm prev es j = true ∧ ∀ l < j, badAt hm prev es l = false := by
  induction es with
  | nil =>
    intro prev i k
    simp [verifyLoop, badAt_nil]
  | cons e rest ih =>
    intro prev i k
    cases hmis : entryMismatch hm prev e with
    | true =>
      rw [verifyLoop_cons_found hm prev i e rest hmis]
      constructor
      · intro hk
        injection hk with hk
        subst hk
        refine ⟨0, by omega, ?_, ?_⟩
        · rw [badAt_cons_zero]; exact hmis
        · intro l hl; exact absurd hl (by omega)
      · rintro ⟨j, rfl, hbad, hlt⟩
        cases j with
        | zero => simp
        | succ j' =>
          exfalso
          have h0 := hlt 0 (Nat.succ_pos j')
          rw [badAt_cons_zero, hmis] at h0
          cases h0
    | false =>
      rw [verifyLoop_cons_step hm prev i e rest hmis, ih e.hash (i + 1) k]
      constructor
      · rintro ⟨j, rfl, hbad, hlt⟩
        refine ⟨j + 1, by omega, ?_, ?_⟩
        · rwa [badAt_cons_succ]
        · intro l hl
          cases l with
          | zero => rw [badAt_cons_zero]; exact hmis
          | succ l' =>
            rw [badAt_cons_succ]
            exact hlt l' (by omega)
      · rintro ⟨j, rfl, hbad, hlt⟩
        cases j with
        | zero =>
          exfalso
          rw [badAt_cons_zero, hmis] at hbad
          cases hbad
        | succ j' =>
          refine ⟨j', by omega, ?_, ?_⟩
          · rwa [badAt_cons_succ] at hbad
          · intro l hl
            have := hlt (l + 1) (by omega)
            rwa [badAt_cons_succ] at this

theorem verifyLoop_eq_none (hm : HashModel) (es : List LogEntry) :
    ∀ (prev : String) (i : Nat),
      verifyLoop hm prev i es = none ↔ ∀ j, badAt hm prev es j = false := by
  induction es with
  | nil =>
    intro prev i
    simp [verifyLoop, badAt_nil]
  | cons e rest ih =>
    intro prev i
    cases hmis : entryMismatch hm prev e with
    | true =>
      rw [verifyLoop_cons_found hm prev i e rest hmis]
      constructor
      · intro h; cases h
      · intro hall
        have h0 := hall 0
        rw [badAt_cons_zero, hmis] at h0
        cases h0
    | false =>
      rw [verifyLoop_cons_step hm prev i e rest hmis, ih e.hash (i + 1)]
      constructor
      · intro hall j
        cases j with
        | zero => rw [badAt_cons_zero]; exact hmis
        | succ j' =>
          rw [badAt_cons_succ]
          exact hall j'
      · intro hall j
        have := hall (j + 1)
        rwa [badAt_cons_succ] at this

theorem prevAt_append_le (p : String) (es ys : List LogEntry) (j : Nat) (h : j ≤ es.length) :
    prevAt p (es ++ ys) j = prevAt p es j := by
  cases j with
  | zero => rfl
  | succ k =>
    simp only [prevAt]
    rw [List.getElem?_append, if_pos (by omega)]

theorem badAt_append_lt (hm : HashModel) (p : String) (es ys : List LogEntry) (j : Nat)
    (h : j < es.length) : badAt hm p (es ++ ys) j = badAt hm p es j := by
  unfold badAt
  rw [List.getElem?_append, if_pos h, prevAt_append_le p es ys j (by omega)]

theorem badAt_append_new (hm : HashModel) (es : List LogEntry) (e : LogEntry)
    (hprev : e.prevHash = lastHash es) (hhash : e.hash = calculateEntryHash hm e) :
    badAt hm "" (es ++ [e]) es.length = false := by
  have hget : (es ++ [e])[es.length]? = some e := by
    rw [List.getElem?_append, if_neg (by omega), Nat.sub_self, List.getElem?_cons_zero]
  have hprevAt : prevAt "" (es ++ [e]) es.length = lastHash es := by
    cases hlen : es.length with
    | zero =>
      have hnil : es = [] := List.length_eq_zero.mp hlen
      subst hnil
      simp [prevAt, lastHash]
    | succ k =>
      simp only [prevAt]
      rw [List.getElem?_append, if_pos (by omega)]
      have hk : es[k]? = es.getLast? := by
        rw [List.getLast?_eq_getElem?, hlen, Nat.add_sub_cancel]
      rw [hk]
      unfold lastHash
      cases es.getLast? <;> rfl
  simp only [badAt, hget, hprevAt]
  simp [entryMismatch, hprev, hhash]

theorem badAt_append_gt (hm : HashModel) (es : List LogEntry) (e : LogEntry) (j : Nat)
    (h : es.length < j) : badAt hm "" (es ++ [e]) j = false := by
  have hnone : (es ++ [e])[j]? = none := by
    apply List.getElem?_eq_none
    simp only [List.length_append, List.length_cons, List.length_nil]
    omega
  simp only [badAt, hnone]

theorem GoodLog_fresh (hm : HashModel) (pid : String) :
    GoodLog hm (NewHypercoreLog pid) := by
  constructor
  · intro j
    exact badAt_nil hm "" j
  · rfl

theorem GoodLog_append (hm : HashModel) (h : HypercoreLog) (t : String)
    (d : List (String × String)) (ts : Nat) (hg : GoodLog hm h) :
    GoodLog hm (Append hm h t d ts).1 := by
  obtain ⟨hbad, hhead⟩ := hg
  constructor
  · intro j
    show badAt hm "" (h.entries ++ [_]) j = false
    rcases lt_trichotomy j h.entries.length with hj | hj | hj
    · rw [badAt_append_lt hm "" _ _ j hj]
      exact hbad j
    · subst hj
      apply badAt_append_new
      · show h.headHash = lastHash h.entries
        exact hhead
      · rfl
    · exact badAt_append_gt hm _ _ j hj
  · show _ = lastHash (h.entries ++ [_])
    unfold lastHash
    rw [List.getLast?_concat]
    rfl

theorem GoodLog_appendAll (hm : HashModel)
    (ops : List (String × List (String × String) × Nat)) :
    ∀ h, GoodLog hm h → GoodLog hm (appendAll hm h ops) := by
  induction ops with
  | nil => intro h hg; exact hg
  | cons op rest ih =>
    intro h hg
    obtain ⟨t, d, ts⟩ := op
    exact ih _ (GoodLog_append hm h t d ts hg)

theorem badAt_false_elim (hm : HashModel) (es : List LogEntry) (j : Nat) (hj : j < es.length)
    (h : badAt hm "" es j = false) :
    (es.get ⟨j, hj⟩).prevHash = prevAt "" es j ∧
      (es.get ⟨j, hj⟩).hash = calculateEntryHash hm (es.get ⟨j, hj⟩) := by
  unfold badAt at h
  rw [List.getElem?_eq_getElem hj] at h
  simp only [entryMismatch, Bool.or_eq_false_iff] at h
  rw [List.get_eq_getElem]
  exact ⟨bne_eq_false_iff_eq.mp h.1, bne_eq_false_iff_eq.mp h.2⟩

/-- Concrete executable hash model used by witnesses. -/
def demoHash : HashModel :=
  { entryHash := fun e =>
      String.intercalate "|" [toString e.index, e.author, e.type, e.prevHash],
    sigHash := fun pid h i => pid ++ ":" ++ h ++ ":" ++ toString i }

def demoOps : List (String × List (String × String) × Nat) :=
  [("task_claimed", [("task_id", "42")], 5), ("task_completed", [("task_id", "42")], 9)]

/-- Claim C1: a log built by `Append` calls on a fresh `HypercoreLog` links
`entry[i].PrevHash` to `entry[i-1].Hash`, has `entry[0].PrevHash = ""`, gives
every entry the hash computed by `calculateEntryHash` (the abstract
SHA-256-of-JSON with the `Hash`/`Signature` fields excluded), and passes
`VerifyIntegrity`; on an arbitrary log, `VerifyIntegrity` returns `some k`
exactly when position `k` is the first chain or hash mismatch. -/
theorem claim_C1_log_integrity (hm : HashModel) (pid : String)
    (ops : List (String × List (String × String) × Nat)) :
    (∀ i (hi : i + 1 < (appendAll hm (NewHypercoreLog pid) ops).entries.length),
        ((appendAll hm (NewHypercoreLog pid) ops).entries.get ⟨i + 1, hi⟩).prevHash =
          ((appendAll hm (NewHypercoreLog pid) ops).entries.get ⟨i, by omega⟩).hash) ∧
    (∀ h0 : 0 < (appendAll hm (NewHypercoreLog pid) ops).entries.length,
        ((appendAll hm (NewHypercoreLog pid) ops).entries.get ⟨0, h0⟩).prevHash = "") ∧
    (∀ e ∈ (appendAll hm (NewHypercoreLog pid) ops).entries,
        e.hash = calculateEntryHash hm e) ∧
    VerifyIntegrity hm (appendAll hm (NewHypercoreLog pid) ops) = none ∧
    (∀ (lg : HypercoreLog) (k : Nat),
        VerifyIntegrity hm lg = some k ↔
          badAt hm "" lg.entries k = true ∧ ∀ l < k, badAt hm "" lg.entries l = false) := by
  obtain ⟨hbad, hhead⟩ := GoodLog_appendAll hm ops (NewHypercoreLog pid) (GoodLog_fresh hm pid)
  refine ⟨?_, ?_, ?_, ?_, ?_⟩
  · intro i hi
    have h := badAt_false_elim hm _ (i + 1) hi (hbad (i + 1))
    rw [h.1]
    simp only [prevAt]
    rw [List.getElem?_eq_getElem (show i < _ by omega), List.get_eq_getElem]
  · intro h0
    have h := badAt_false_elim hm _ 0 h0 (hbad 0)
    rw [h.1]
    rfl
  · intro e he
    rcases List.mem_iff_getElem?.mp he with ⟨j, hj⟩
    have hb := hbad j
    unfold badAt at hb
    rw [hj] at hb
    simp only [entryMismatch, Bool.or_eq_false_iff] at hb
    exact bne_eq_false_iff_eq.mp hb.2
  · unfold VerifyIntegrity
    exact (verifyLoop_eq_none hm _ "" 0).mpr hbad
  · intro lg k
    unfold VerifyIntegrity
    rw [verifyLoop_eq_some hm lg.entries "" 0 k]
    constructor
    · rintro ⟨j, rfl, hb, hl⟩
      simpa using ⟨hb, hl⟩
    · rintro ⟨hb, hl⟩
      exact ⟨k, by omega, hb, hl⟩

/-- Witness for C1: a concrete two-entry log, with chain link and successful
verification extracted from the theorem. -/
theorem claim_C1_log_integrity_witness :
    (0 + 1 < (appendAll demoHash (NewHypercoreLog "p1") demoOps).entries.length ∧
      ((appendAll demoHash (NewHypercoreLog "p1") demoOps).entries.get ⟨0 + 1, by decide⟩).prevHash =
        ((appendAll demoHash (NewHypercoreLog "p1") demoOps).entries.get ⟨0, by decide⟩).hash) ∧
    VerifyIntegrity demoHash (appendAll demoHash (NewHypercoreLog "p1") demoOps) = none :=
  ⟨⟨by decide, (claim_C1_log_integrity demoHash "p1" demoOps).1 0 (by decide)⟩,
    (claim_C1_log_integrity demoHash "p1" demoOps).2.2.2.1⟩

/-! ## Work source & claim engine (github/hive_integration.go, main.go)

`canHandleTaskType` and `filterSuitableTasks` are the capability filter of
`HiveIntegration`; `pollAllRepositories` is the selection logic of one
polling tick (the aggregation of the per-repository task lists, the filter,
and the pick of `suitableTasks[0]`), returning the task on which a claim is
attempted, if any.  `SimpleTaskTracker` is the tracker from `main.go`. -/

structure EnhancedTask where
  number : Nat
  taskType : String
  priority : Nat
deriving DecidableEq, Repr

def canHandleTaskType (capabilities : List String) (taskType : String) : Bool :=
  capabilities.any (fun capability =>
    capability == taskType || capability == "general" || capability == "task-coordination")

def filterSuitableTasks (capabilities : List String) (tasks : List EnhancedTask) :
    List EnhancedTask :=
  tasks.filter (fun task => canHandleTaskType capabilities task.taskType)

def pollAllRepositories (capabilities : List String)
    (repositoryTasks : List (List EnhancedTask)) : Option EnhancedTask :=
  let allTasks := repositoryTasks.flatten
  if allTasks.isEmpty then none
  else
    let suitableTasks := filterSuitableTasks capabilities allTasks
    if suitableTasks.isEmpty then none
    else suitableTasks.head?

structure SimpleTaskTracker where
  maxTasks : Nat
  activeTasks : List String
deriving Repr

def GetActiveTasks (t : SimpleTaskTracker) : List String := t.activeTasks

def GetMaxTasks (t : SimpleTaskTracker) : Nat := t.maxTasks

def AddTask (t : SimpleTaskTracker) (taskID : String) : SimpleTaskTracker :=
  if taskID ∈ t.activeTasks then t
  else { t with activeTasks := t.activeTasks ++ [taskID] }

def RemoveTask (t : SimpleTaskTracker) (taskID : String) : SimpleTaskTracker :=
  { t with activeTasks := t.activeTasks.filter (fun x => x != taskID) }

/-- Claim C2 (code bug): the polling tick consults no task count at all, so a
claim is attempted even when the node already holds `maxTasks` active tasks,
and `SimpleTaskTracker.AddTask` grows the active set past `maxTasks`. -/
theorem claim_C2_bounded_claims_bug :
    ((GetActiveTasks { maxTasks := 1, activeTasks := ["t1"] }).length ≥
        GetMaxTasks { maxTasks := 1, activeTasks := ["t1"] }) ∧
    pollAllRepositories ["general"] [[{ number := 7, taskType := "feature", priority := 1 }]] =
      some { number := 7, taskType := "feature", priority := 1 } ∧
    ((GetActiveTasks (AddTask { maxTasks := 1, activeTasks := ["t1"] } "t2")).length >
        GetMaxTasks (AddTask { maxTasks := 1, activeTasks := ["t1"] } "t2")) := by
  refine ⟨by decide, by decide, by decide⟩

def taskA : EnhancedTask := { number := 1, taskType := "feature", priority := 2 }

def taskB : EnhancedTask := { number := 2, taskType := "feature", priority := 1 }

def taskC : EnhancedTask := { number := 3, taskType := "feature", priority := 3 }

/-- Counterexample to C5 as stated: all three tasks are suitable, yet the
engine claims the one that is first in aggregation order, whose priority is
neither the minimum nor the maximum of the candidates — so no sort by
priority happens and the claimed item is not the highest-priority one under
either reading of priority. -/
theorem claim_C5_counterexample :
    pollAllRepositories ["general"] [[taskA, taskB], [taskC]] = some taskA ∧
    taskB ∈ filterSuitableTasks ["general"] [[taskA, taskB], [taskC]].flatten ∧
    taskC ∈ filterSuitableTasks ["general"] [[taskA, taskB], [taskC]].flatten ∧
    taskB.priority < taskA.priority ∧ taskA.priority < taskC.priority := by
  refine ⟨by decide, by decide, by decide, by decide, by decide⟩

/-- Claim C5 (amended): on a polling tick the engine aggregates the items of
all active repositories, keeps exactly those whose task type the agent can
handle (a capability equals the task type, or the capability set contains
the wildcard general/task-coordination), and attempts to claim the first
suitable item in aggregation order; the candidates are not sorted by
priority. -/
theorem claim_C5_poll_selection (capabilities : List String)
    (repositoryTasks : List (List EnhancedTask)) :
    (∀ task, task ∈ filterSuitableTasks capabilities repositoryTasks.flatten ↔
        task ∈ repositoryTasks.flatten ∧ canHandleTaskType capabilities task.taskType = true) ∧
    (∀ task : EnhancedTask, canHandleTaskType capabilities task.taskType = true ↔
        ∃ c ∈ capabilities,
          c = task.taskType ∨ c = "general" ∨ c = "task-coordination") ∧
    pollAllRepositories capabilities repositoryTasks =
      (filterSuitableTasks capabilities repositoryTasks.flatten).head? := by
  refine ⟨?_, ?_, ?_⟩
  · intro task
    unfold filterSuitableTasks
    rw [List.mem_filter]
  · intro task
    unfold canHandleTaskType
    rw [List.any_eq_true]
    constructor
    · rintro ⟨c, hc, hor⟩
      refine ⟨c, hc, ?_⟩
      rcases Bool.or_eq_true _ _ ▸ hor with h | h
      · rcases Bool.or_eq_true _ _ ▸ h with h' | h'
        · exact Or.inl (by simpa using h')
        · exact Or.inr (Or.inl (by simpa using h'))
      · exact Or.inr (Or.inr (by simpa using h))
    · rintro ⟨c, hc, hor⟩
      refine ⟨c, hc, ?_⟩
      rcases hor with rfl | rfl | rfl <;> simp
  · unfold pollAllRepositories
    dsimp only
    split <;> rename_i hempty
    · rw [List.isEmpty_iff] at hempty
      rw [show filterSuitableTasks capabilities repositoryTasks.flatten = [] by
        rw [hempty]; rfl]
      rfl
    · split <;> rename_i hsuit
      · rw [List.isEmpty_iff] at hsuit
        rw [hsuit]
        rfl
      · rfl

/-! ## Meta-discussion integration (unnamed/part_011)

`Conversation`, `Integration.executeTask` and `Integration.handleMetaDiscussion`
are embedded with an explicit state (the `activeDiscussions` map as an
association list) and an explicit effect record; the reasoning backend
`reasoning.GenerateResponse` is the abstract `gen : String → Option String`
(`none` models a generation error).  `MetaMsg` carries the two fields the
handler reads from `msg.Data`: the `issue_id` cast (`none` when the cast
fails) and the `message` string. -/

structure Conversation where
  taskID : Nat
  taskTitle : String
  taskDescription : String
  history : List String
  lastUpdated : Nat
  isEscalated : Bool
deriving DecidableEq, Repr

structure IntegrationState where
  agentID : String
  activeDiscussions : List (Nat × Conversation)
deriving DecidableEq, Repr

structure MetaMsg where
  issueId : Option Nat
  message : String
deriving DecidableEq, Repr

/-- Observable effects of one handler invocation: how many times the
reasoning backend was called, the meta-discussion messages published
(task id paired with the `message` field), and how many webhook POSTs
were sent. -/
structure MetaEffects where
  reasoningCalls : Nat
  publishedMessages : List (Nat × String)
  webhookPosts : Nat
deriving DecidableEq, Repr

def noEffects : MetaEffects :=
  { reasoningCalls := 0, publishedMessages := [], webhookPosts := 0 }

def lookupDiscussion (l : List (Nat × Conversation)) (taskID : Nat) : Option Conversation :=
  match l with
  | [] => none
  | (k, c) :: rest => if k == taskID then some c else lookupDiscussion rest taskID

def updateDiscussion (l : List (Nat × Conversation)) (taskID : Nat) (c : Conversation) :
    List (Nat × Conversation) :=
  match l with
  | [] => []
  | (k, c0) :: rest =>
    if k == taskID then (k, c) :: rest else (k, c0) :: updateDiscussion rest taskID c

def insertDiscussion (l : List (Nat × Conversation)) (taskID : Nat) (c : Conversation) :
    List (Nat × Conversation) :=
  match l with
  | [] => [(taskID, c)]
  | (k, c0) :: rest =>
    if k == taskID then (k, c) :: rest else (k, c0) :: insertDiscussion rest taskID c

def escalationNotice : String :=
  "This task has been escalated for human review. No further automated action will be taken."

def metaPrompt (convo : Conversation) (historyStr : String) : String :=
  "You are an AI developer collaborating on a task. " ++
    "This is the original task: Title: " ++ convo.taskTitle ++
    ", Body: " ++ convo.taskDescription ++
    ". This is the conversation so far:\n" ++ historyStr ++
    "\n\nBased on the last message, provide a concise and helpful response."

def handleMetaDiscussion (gen : String → Option String) (st : IntegrationState)
    (msg : MetaMsg) (fromPeer : String) (now : Nat) : IntegrationState × MetaEffects :=
  match msg.issueId with
  | none => (st, noEffects)
  | some taskID =>
    match lookupDiscussion st.activeDiscussions taskID with
    | none => (st, noEffects)
    | some convo =>
      if convo.isEscalated then (st, noEffects)
      else
        let history1 := convo.history ++ ["Response from " ++ fromPeer ++ ": " ++ msg.message]
        let convo1 := { convo with history := history1, lastUpdated := now }
        let st1 := { st with activeDiscussions := updateDiscussion st.activeDiscussions taskID convo1 }
        match gen (metaPrompt convo (String.intercalate "\n" history1)) with
        | none => (st1, { noEffects with reasoningCalls := 1 })
        | some response =>
          if shouldEscalate response history1 then
            ({ st with activeDiscussions :=
                (updateDiscussion st.activeDiscussions taskID { convo1 with isEscalated := true }) },
             { reasoningCalls := 1,
               publishedMessages := [(taskID, escalationNotice)],
               webhookPosts := 1 })
          else
            (st1, { reasoningCalls := 1,
                    publishedMessages := [(taskID, response)],
                    webhookPosts := 0 })

def planPrompt (title description : String) : String :=
  "You are an expert AI developer. Based on the following GitHub issue, " ++
    "create a concise, step-by-step plan to resolve it. Issue Title: " ++ title ++
    ". Issue Body: " ++ description ++ "."

def executeTask (gen : String → Option String) (st : IntegrationState)
    (number : Nat) (title description : String) (now : Nat) :
    IntegrationState × MetaEffects :=
  match gen (planPrompt title description) with
  | none => (st, { noEffects with reasoningCalls := 1 })
  | some plan =>
    ({ st with activeDiscussions :=
        (insertDiscussion st.activeDiscussions number
          { taskID := number, taskTitle := title, taskDescription := description,
            history := ["Plan by " ++ st.agentID ++ ": " ++ plan],
            lastUpdated := now, isEscalated := false }) },
     { reasoningCalls := 1,
       publishedMessages := [(number, "Here is my proposed plan of action. What are your thoughts?")],
       webhookPosts := 0 })

def combineEffects (a b : MetaEffects) : MetaEffects :=
  { reasoningCalls := a.reasoningCalls + b.reasoningCalls,
    publishedMessages := a.publishedMessages ++ b.publishedMessages,
    webhookPosts := a.webhookPosts + b.webhookPosts }

def runMessages (gen : String → Option String) (fromPeer : String) (now : Nat)
    (st : IntegrationState) : List MetaMsg → IntegrationState × MetaEffects
  | [] => (st, noEffects)
  | m :: rest =>
    let step := handleMetaDiscussion gen st m fromPeer now
    let tail := runMessages gen fromPeer now step.1 rest
    (tail.1, combineEffects step.2 tail.2)

theorem handleMetaDiscussion_escalated (gen : String → Option String)
    (st : IntegrationState) (msg : MetaMsg) (fromPeer : String) (now : Nat)
    (taskID : Nat) (convo : Conversation)
    (hid : msg.issueId = some taskID)
    (hlook : lookupDiscussion st.activeDiscussions taskID = some convo)
    (hesc : convo.isEscalated = true) :
    handleMetaDiscussion gen st msg fromPeer now = (st, noEffects) := by
  simp only [handleMetaDiscussion, hid, hlook, hesc, if_true]

/-- Claim C3: once a conversation is escalated, every further invocation of
the meta-discussion handler for that item leaves the state untouched and
produces no effects: nothing is appended to the history, the reasoning
backend is not called, nothing is published and no webhook fires. -/
theorem claim_C3_escalation_monotonic (gen : String → Option String)
    (st : IntegrationState) (msg : MetaMsg) (fromPeer : String) (now : Nat)
    (taskID : Nat) (convo : Conversation)
    (hid : msg.issueId = some taskID)
    (hlook : lookupDiscussion st.activeDiscussions taskID = some convo)
    (hesc : convo.isEscalated = true) :
    handleMetaDiscussion gen st msg fromPeer now = (st, noEffects) :=
  handleMetaDiscussion_escalated gen st msg fromPeer now taskID convo hid hlook hesc

def escalatedConvoDemo : Conversation :=
  { taskID := 42, taskTitle := "T", taskDescription := "B",
    history := ["a", "b"], lastUpdated := 0, isEscalated := true }

/-- Witness for C3 at a concrete escalated conversation. -/
theorem claim_C3_escalation_monotonic_witness :
    handleMetaDiscussion (fun _ => some "ok")
        { agentID := "agent", activeDiscussions := [(42, escalatedConvoDemo)] }
        { issueId := some 42, message := "hi" } "peer" 5 =
      ({ agentID := "agent", activeDiscussions := [(42, escalatedConvoDemo)] }, noEffects) :=
  claim_C3_escalation_monotonic (fun _ => some "ok")
    { agentID := "agent", activeDiscussions := [(42, escalatedConvoDemo)] }
    { issueId := some 42, message := "hi" } "peer" 5 42 escalatedConvoDemo
    (by decide) (by decide) (by decide)

def hasEscalationKeyword (response : String) : Bool :=
  escalationKeywords.any (fun keyword => containsSubstring (toLowerGo response) keyword)

theorem shouldEscalate_eq (r : String) (h : List String) :
    shouldEscalate r h =
      (hasEscalationKeyword r || decide (h.length ≥ conversationHistoryLimit)) := by
  cases hany : escalationKeywords.any (fun keyword => containsSubstring (toLowerGo r) keyword) with
  | true => simp [shouldEscalate, hasEscalationKeyword, hany]
  | false =>
    by_cases hlen : h.length ≥ conversationHistoryLimit
    · simp [shouldEscalate, hasEscalationKeyword, hany, hlen]
    · simp [shouldEscalate, hasEscalationKeyword, hany, hlen]

theorem lookupDiscussion_mem (l : List (Nat × Conversation)) (k : Nat) (c : Conversation)
    (h : lookupDiscussion l k = some c) : ∃ p ∈ l, p.2 = c := by
  induction l with
  | nil => cases h
  | cons hd tl ih =>
    obtain ⟨k0, c0⟩ := hd
    unfold lookupDiscussion at h
    by_cases hk : (k0 == k) = true
    · rw [if_pos hk] at h
      injection h with h
      exact ⟨(k0, c0), by simp, h⟩
    · rw [if_neg hk] at h
      obtain ⟨p, hp, hpc⟩ := ih h
      exact ⟨p, by simp [hp], hpc⟩

theorem handleMetaDiscussion_all_escalated (gen : String → Option String)
    (st : IntegrationState) (m : MetaMsg) (fromPeer : String) (now : Nat)
    (hall : ∀ p ∈ st.activeDiscussions, p.2.isEscalated = true) :
    handleMetaDiscussion gen st m fromPeer now = (st, noEffects) := by
  unfold handleMetaDiscussion
  cases hid : m.issueId with
  | none => rfl
  | some tid =>
    cases hlk : lookupDiscussion st.activeDiscussions tid with
    | none => simp only [hlk]
    | some c =>
      obtain ⟨p, hp, hpc⟩ := lookupDiscussion_mem _ _ _ hlk
      have hc : c.isEscalated = true := hpc ▸ hall p hp
      simp only [hlk, hc, if_true]

theorem runMessages_all_escalated (gen : String → Option String) (fromPeer : String) (now : Nat)
    (st : IntegrationState)
    (hall : ∀ p ∈ st.activeDiscussions, p.2.isEscalated = true) :
    ∀ msgs : List MetaMsg, runMessages gen fromPeer now st msgs = (st, noEffects) := by
  intro msgs
  induction msgs with
  | nil => rfl
  | cons m rest ih =>
    unfold runMessages
    rw [handleMetaDiscussion_all_escalated gen st m fromPeer now hall]
    dsimp only
    rw [ih]
    simp [combineEffects, noEffects]

theorem handleMetaDiscussion_single_step (gen : String → Option String)
    (a : String) (tid : Nat) (fromPeer : String) (now : Nat)
    (convo : Conversation) (m : MetaMsg)
    (hgen : ∀ p, ∃ r, gen p = some r ∧ hasEscalationKeyword r = false)
    (hid : m.issueId = some tid)
    (hesc : convo.isEscalated = false) :
    ∃ (convo1 : Conversation) (eff : MetaEffects),
      handleMetaDiscussion gen ⟨a, [(tid, convo)]⟩ m fromPeer now =
        (⟨a, [(tid, convo1)]⟩, eff) ∧
      convo1.history.length = convo.history.length + 1 ∧
      convo1.isEscalated = decide (10 ≤ convo.history.length + 1) ∧
      eff.reasoningCalls = 1 ∧
      eff.webhookPosts = (if 10 ≤ convo.history.length + 1 then 1 else 0) ∧
      eff.publishedMessages.length = 1 := by
  obtain ⟨r, hr, hkw⟩ :=
    hgen (metaPrompt convo (String.intercalate "\n"
      (convo.history ++ ["Response from " ++ fromPeer ++ ": " ++ m.message])))
  have hlookup : lookupDiscussion [(tid, convo)] tid = some convo := by
    simp [lookupDiscussion]
  have hupd : ∀ c, updateDiscussion [(tid, convo)] tid c = [(tid, c)] := by
    intro c
    simp [updateDiscussion]
  have hshould : shouldEscalate r
      (convo.history ++ ["Response from " ++ fromPeer ++ ": " ++ m.message]) =
      decide (10 ≤ convo.history.length + 1) := by
    rw [shouldEscalate_eq, hkw, Bool.false_or]
    congr 1
    rw [List.length_append]
    rfl
  unfold handleMetaDiscussion
  simp only [hid, hlookup, hesc, hr, hshould, Bool.false_eq_true, if_false]
  by_cases hten : 10 ≤ convo.history.length + 1
  · rw [if_pos (by simpa using hten)]
    refine ⟨{ convo with
        history := convo.history ++ ["Response from " ++ fromPeer ++ ": " ++ m.message],
        lastUpdated := now, isEscalated := true },
      { reasoningCalls := 1, publishedMessages := [(tid, escalationNotice)], webhookPosts := 1 },
      ?_, ?_, ?_, rfl, ?_, rfl⟩
    · rw [hupd]
    · simp [List.length_append]
    · simp [hten]
    · rw [if_pos hten]
  · rw [if_neg (by simpa using hten)]
    refine ⟨{ convo with
        history := convo.history ++ ["Response from " ++ fromPeer ++ ": " ++ m.message],
        lastUpdated := now },
      { reasoningCalls := 1, publishedMessages := [(tid, r)], webhookPosts := 0 },
      ?_, ?_, ?_, rfl, ?_, rfl⟩
    · rw [hupd, hesc]
    · simp [List.length_append]
    · simp [hesc, hten]
    · rw [if_neg hten]

theorem runMessages_single_convo (gen : String → Option String) (a fromPeer : String)
    (now : Nat) (tid : Nat)
    (hgen : ∀ p, ∃ r, gen p = some r ∧ hasEscalationKeyword r = false) :
    ∀ (msgs : List MetaMsg) (convo : Conversation),
      (∀ m ∈ msgs, m.issueId = some tid) →
      convo.isEscalated = false →
      convo.history.length ≤ 9 →
      ∃ convoN : Conversation,
        (runMessages gen fromPeer now ⟨a, [(tid, convo)]⟩ msgs).1.activeDiscussions
          = [(tid, convoN)] ∧
        convoN.history.length = min (convo.history.length + msgs.length) 10 ∧
        (convoN.isEscalated = true ↔ 10 ≤ convo.history.length + msgs.length) ∧
        (runMessages gen fromPeer now ⟨a, [(tid, convo)]⟩ msgs).2.webhookPosts
          = (if 10 ≤ convo.history.length + msgs.length then 1 else 0) ∧
        (runMessages gen fromPeer now ⟨a, [(tid, convo)]⟩ msgs).2.publishedMessages.length
          = min msgs.length (10 - convo.history.length) := by
  intro msgs
  induction msgs with
  | nil =>
    intro convo hall hesc hlen
    simp only [List.length_nil]
    refine ⟨convo, rfl, by omega, ?_, ?_, ?_⟩
    · constructor
      · intro h
        rw [hesc] at h
        cases h
      · intro h
        omega
    · show noEffects.webhookPosts = _
      rw [if_neg (by omega)]
      rfl
    · show noEffects.publishedMessages.length = _
      simp [noEffects]
  | cons m rest ih =>
    intro convo hall hesc hlen
    simp only [List.length_cons]
    have hmid : m.issueId = some tid := hall m (by simp)
    obtain ⟨convo1, eff1, heq, hlen1, hesc1, hrc1, hweb1, hpub1⟩ :=
      handleMetaDiscussion_single_step gen a tid fromPeer now convo m hgen hmid hesc
    unfold runMessages
    rw [heq]
    dsimp only
    have hallr : ∀ m' ∈ rest, m'.issueId = some tid := fun m' hm' => hall m' (by simp [hm'])
    by_cases h9 : convo.history.length ≤ 8
    · have hesc1' : convo1.isEscalated = false := by
        rw [hesc1]
        simp
        omega
      obtain ⟨convoN, hN1, hN2, hN3, hN4, hN5⟩ := ih convo1 hallr hesc1' (by omega)
      have hweb1' : eff1.webhookPosts = 0 := by rw [hweb1, if_neg (by omega)]
      have hpub1' : eff1.publishedMessages.length = 1 := hpub1
      refine ⟨convoN, hN1, ?_, ?_, ?_, ?_⟩
      · rw [hN2, hlen1]
        omega
      · rw [hN3, hlen1]
        omega
      · simp only [combineEffects]
        rw [hweb1', hN4, hlen1]
        by_cases hcond : 10 ≤ convo.history.length + (rest.length + 1)
        · rw [if_pos (by omega), if_pos (by omega)]
        · rw [if_neg (by omega), if_neg (by omega)]
      · simp only [combineEffects, List.length_append]
        rw [hpub1', hN5, hlen1]
        omega
    · have hL : convo.history.length = 9 := by omega
      have hesc1' : convo1.isEscalated = true := by
        rw [hesc1]
        simp
        omega
      have habs := runMessages_all_escalated gen fromPeer now ⟨a, [(tid, convo1)]⟩
        (by
          intro p hp
          simp only [List.mem_singleton] at hp
          rw [hp]
          exact hesc1') rest
      rw [habs]
      refine ⟨convo1, rfl, ?_, ?_, ?_, ?_⟩
      · rw [hlen1]
        omega
      · constructor
        · intro _
          omega
        · intro _
          exact hesc1'
      · simp only [combineEffects, noEffects, List.length_cons]
        rw [hweb1, if_pos (by omega), if_pos (by omega)]
      · simp only [combineEffects, noEffects, List.length_append, List.length_nil,
          List.length_cons]
        rw [hpub1]
        omega

def demoGen : String → Option String := fun _ => some "ok"

def demoMsg : MetaMsg := { issueId := some 42, message := "fb" }

def demoPlanState : IntegrationState :=
  (executeTask demoGen { agentID := "agent", activeDiscussions := [] } 42 "T" "B" 0).1

/-- Counterexample to C8 as stated: with the plan recorded as the first
history utterance, the conversation is already escalated after the 9th
injected message (history reaches the limit of 10 then), with the webhook
fired — contradicting escalation exactly at the 10th message. -/
theorem claim_C8_counterexample :
    ((runMessages demoGen "peer" 1 demoPlanState (List.replicate 9 demoMsg)).1.activeDiscussions.map
        (fun p => p.2.isEscalated)) = [true] ∧
    (runMessages demoGen "peer" 1 demoPlanState (List.replicate 9 demoMsg)).2.webhookPosts = 1 ∧
    ((runMessages demoGen "peer" 1 demoPlanState (List.replicate 8 demoMsg)).1.activeDiscussions.map
        (fun p => p.2.isEscalated)) = [false] := by
  refine ⟨by decide, by decide, by decide⟩

/-- Claim C8 (amended): for a conversation created at plan time (the plan is
the first history utterance) that only receives keyword-free responses, the
conversation becomes escalated exactly upon processing the 9th injected
incoming message (the history then reaches the limit of 10), the webhook
fires exactly once, and subsequent messages produce no responses: exactly
`min n 9` messages are published for `n` injected messages. -/
theorem claim_C8_history_cap (gen : String → Option String)
    (a fromPeer : String) (now0 now : Nat) (number : Nat)
    (title description plan : String) (msgs : List MetaMsg)
    (hplan : gen (planPrompt title description) = some plan)
    (hgen : ∀ p, ∃ r, gen p = some r ∧ hasEscalationKeyword r = false)
    (hid : ∀ m ∈ msgs, m.issueId = some number) :
    ∃ convoN : Conversation,
      (runMessages gen fromPeer now (executeTask gen ⟨a, []⟩ number title description now0).1
          msgs).1.activeDiscussions = [(number, convoN)] ∧
      convoN.history.length = min (1 + msgs.length) 10 ∧
      (convoN.isEscalated = true ↔ 9 ≤ msgs.length) ∧
      (runMessages gen fromPeer now (executeTask gen ⟨a, []⟩ number title description now0).1
          msgs).2.webhookPosts = (if 9 ≤ msgs.length then 1 else 0) ∧
      (runMessages gen fromPeer now (executeTask gen ⟨a, []⟩ number title description now0).1
          msgs).2.publishedMessages.length = min msgs.length 9 := by
  have hexec : (executeTask gen ⟨a, []⟩ number title description now0).1 =
      (⟨a, [(number,
        ({ taskID := number, taskTitle := title, taskDescription := description,
           history := ["Plan by " ++ a ++ ": " ++ plan], lastUpdated := now0,
           isEscalated := false } : Conversation))]⟩ : IntegrationState) := by
    unfold executeTask
    rw [hplan]
    rfl
  rw [hexec]
  obtain ⟨convoN, h1, h2, h3, h4, h5⟩ :=
    runMessages_single_convo gen a fromPeer now number hgen msgs
      { taskID := number, taskTitle := title, taskDescription := description,
        history := ["Plan by " ++ a ++ ": " ++ plan], lastUpdated := now0,
        isEscalated := false }
      hid rfl (by simp)
  simp only [List.length_cons, List.length_nil] at h2 h3 h4 h5
  refine ⟨convoN, h1, ?_, ?_, ?_, ?_⟩
  · rw [h2]
  · exact h3.trans (by omega)
  · rw [h4]
    by_cases hc : 9 ≤ msgs.length
    · rw [if_pos (by omega), if_pos hc]
    · rw [if_neg (by omega), if_neg hc]
  · rw [h5]

/-- Witness for C8's amended theorem: two keyword-free feedback messages on
a freshly planned conversation. -/
theorem claim_C8_history_cap_witness :
    ∃ convoN : Conversation,
      (runMessages demoGen "peer" 1 (executeTask demoGen ⟨"agent", []⟩ 42 "T" "B" 0).1
          (List.replicate 2 demoMsg)).1.activeDiscussions = [(42, convoN)] ∧
      convoN.history.length = min (1 + (List.replicate 2 demoMsg).length) 10 ∧
      (convoN.isEscalated = true ↔ 9 ≤ (List.replicate 2 demoMsg).length) ∧
      (runMessages demoGen "peer" 1 (executeTask demoGen ⟨"agent", []⟩ 42 "T" "B" 0).1
          (List.replicate 2 demoMsg)).2.webhookPosts =
        (if 9 ≤ (List.replicate 2 demoMsg).length then 1 else 0) ∧
      (runMessages demoGen "peer" 1 (executeTask demoGen ⟨"agent", []⟩ 42 "T" "B" 0).1
          (List.replicate 2 demoMsg)).2.publishedMessages.length =
        min (List.replicate 2 demoMsg).length 9 :=
  claim_C8_history_cap demoGen "agent" "peer" 0 1 42 "T" "B" "ok"
    (List.replicate 2 demoMsg) rfl (fun _ => ⟨"ok", rfl, by decide⟩) (by decide)

/-! ## Meta coordination sessions (unnamed/part_007: coordination package)

`CoordinationSession`, `evaluateSessionProgress`, `escalateSession` and
`resolveSession` are embedded from `MetaCoordinator`; the configuration
values are the constructor defaults (`maxSessionDuration = 30min`,
`escalationThreshold = 10`).  `participants` keeps the keys of the Go
`Participants` map.  Durations are in seconds. -/

structure CoordinationMessage where
  messageID : String
  fromAgentID : String
  fromPeerID : String
  content : String
  messageType : String
  timestamp : Nat
deriving DecidableEq, Repr

structure CoordinationSession where
  sessionID : String
  type : String
  participants : List String
  messages : List CoordinationMessage
  status : String
  createdAt : Nat
  lastActivity : Nat
  resolution : String
  escalationReason : String
deriving DecidableEq, Repr

def maxSessionDuration : Nat := 30 * 60

def escalationThreshold : Nat := 10

def escalateSession (session : CoordinationSession) (reason : String) : CoordinationSession :=
  { session with status := "escalated", escalationReason := reason }

def resolveSession (session : CoordinationSession) (resolution : String) : CoordinationSession :=
  { session with status := "resolved", resolution := resolution }

def messageAgrees (content : String) : Bool :=
  let c := toLowerGo content
  containsSubstring c "agree" || containsSubstring c "sounds good" ||
    containsSubstring c "approved" || containsSubstring c "looks good"

/-- The `recentMessages` slice computed inside `evaluateSessionProgress`:
the last three messages once more than three exist. -/
def recentMessages (session : CoordinationSession) : List CoordinationMessage :=
  if session.messages.length > 3 then
    session.messages.drop (session.messages.length - 3)
  else session.messages

def evaluateSessionProgress (now : Nat) (session : CoordinationSession) : CoordinationSession :=
  if session.messages.length ≥ escalationThreshold then
    escalateSession session "Message limit exceeded - human intervention needed"
  else if now - session.createdAt > maxSessionDuration then
    escalateSession session "Session duration exceeded - human intervention needed"
  else
    let agreementCount :=
      ((recentMessages session).filter (fun m => messageAgrees m.content)).length
    if agreementCount ≥ session.participants.length - 1 then
      resolveSession session "Consensus reached among participants"
    else session

def demoCoordMsg (i : Nat) (content : String) : CoordinationMessage :=
  { messageID := toString i, fromAgentID := "a", fromPeerID := "p",
    content := content, messageType := "response", timestamp := 0 }

def demoSession : CoordinationSession :=
  { sessionID := "s1", type := "dependency", participants := ["a", "b"],
    messages := [demoCoordMsg 0 "i agree", demoCoordMsg 1 "agree as well",
      demoCoordMsg 2 "Agree"],
    status := "active", createdAt := 0, lastActivity := 0,
    resolution := "", escalationReason := "" }

/-- Counterexample to C6 as stated: a consensus among the demo session's
participants resolves the session, but the recorded reason is the string
"Consensus reached among participants", not "Consensus reached". -/
theorem claim_C6_counterexample :
    (evaluateSessionProgress 0 demoSession).status = "resolved" ∧
    (evaluateSessionProgress 0 demoSession).resolution =
      "Consensus reached among participants" ∧
    (evaluateSessionProgress 0 demoSession).resolution ≠ "Consensus reached" := by
  refine ⟨by decide, by decide, by decide⟩

/-- Claim C6 (amended): on evaluation of an active session, the rules apply
in this order — at least 10 messages escalates with the message-limit
reason; else an age beyond 30 minutes escalates with the duration reason;
else the session is resolved with reason "Consensus reached among
participants" exactly when at least `participants − 1` of the last three
messages contain one of the agreement phrases (case-folded), and is left
unchanged otherwise. -/
theorem claim_C6_session_evaluation (now : Nat) (s : CoordinationSession)
    (hactive : s.status = "active") :
    (10 ≤ s.messages.length →
      evaluateSessionProgress now s =
        escalateSession s "Message limit exceeded - human intervention needed") ∧
    (s.messages.length < 10 → 30 * 60 < now - s.createdAt →
      evaluateSessionProgress now s =
        escalateSession s "Session duration exceeded - human intervention needed") ∧
    (s.messages.length < 10 → now - s.createdAt ≤ 30 * 60 →
      ((evaluateSessionProgress now s =
          resolveSession s "Consensus reached among participants") ↔
        s.participants.length - 1 ≤
          ((recentMessages s).filter (fun m => messageAgrees m.content)).length) ∧
      (¬ (s.participants.length - 1 ≤
          ((recentMessages s).filter (fun m => messageAgrees m.content)).length) →
        evaluateSessionProgress now s = s)) := by
  refine ⟨?_, ?_, ?_⟩
  · intro hlen
    unfold evaluateSessionProgress escalationThreshold maxSessionDuration
    rw [if_pos (by omega)]
  · intro hlen hdur
    unfold evaluateSessionProgress escalationThreshold maxSessionDuration
    rw [if_neg (by omega), if_pos (by omega)]
  · intro hlen hdur
    constructor
    · constructor
      · intro heq
        by_contra hcount
        unfold evaluateSessionProgress escalationThreshold maxSessionDuration at heq
        rw [if_neg (by omega), if_neg (by omega)] at heq
        dsimp only at heq
        rw [if_neg (by omega)] at heq
        have hres : s.status = "resolved" := by
          rw [heq]
          rfl
        rw [hactive] at hres
        exact absurd hres (by decide)
      · intro hcount
        unfold evaluateSessionProgress escalationThreshold maxSessionDuration
        rw [if_neg (by omega), if_neg (by omega)]
        dsimp only
        rw [if_pos (by omega)]
    · intro hcount
      unfold evaluateSessionProgress escalationThreshold maxSessionDuration
      rw [if_neg (by omega), if_neg (by omega)]
      dsimp only
      rw [if_neg (by omega)]

/-- Witness for C6's amended theorem at the demo session: the consensus
branch fires and the escalation branches do not apply. -/
theorem claim_C6_session_evaluation_witness :
    evaluateSessionProgress 0 demoSession =
      resolveSession demoSession "Consensus reached among participants" :=
  ((claim_C6_session_evaluation 0 demoSession (by decide)).2.2 (by decide)
    (by decide)).1.mpr (by decide)

/-! ## Capability broadcaster (main.go)

`announceCapabilitiesOnChange` compares the in-memory capability map
against the memo loaded from disk with `reflect.DeepEqual` on the three
`compareFields` entries `capabilities`, `models`, `specialization`
(`node_id`/`version`/`timestamp`/`reason` are not compared).  The
in-memory entries are Go `[]string` values and a `string`; the memo is
decoded by `json.Unmarshal` into `map[string]interface{}`, so its array
entries have dynamic type `[]interface{}` (of strings) and its string
entry has type `string`.  `reflect.DeepEqual` is false whenever the two
dynamic types differ, so the embedding keeps the dynamic type as a
constructor tag of `GoValue` (`strList` for `[]string`, `anyStrList` for a
`[]interface{}` of strings) and `deepEqual` is equality of tagged values.
`jsonRoundTrip` is the store-then-load conversion performed by
`storeCapabilities`/`loadStoredCapabilities`. -/

structure Caps where
  capabilities : List String
  models : List String
  specialization : String
deriving DecidableEq, Repr

inductive GoValue where
  | str (s : String)
  | strList (l : List String)
  | anyStrList (l : List String)
deriving DecidableEq, Repr

def deepEqual (a b : GoValue) : Bool := decide (a = b)

structure CapsMap where
  capabilities : GoValue
  models : GoValue
  specialization : GoValue
deriving DecidableEq, Repr

/-- The compared entries of the `currentCaps` map built at startup. -/
def currentCapsMap (c : Caps) : CapsMap :=
  { capabilities := GoValue.strList c.capabilities,
    models := GoValue.strList c.models,
    specialization := GoValue.str c.specialization }

def jsonRoundTrip : GoValue → GoValue
  | GoValue.str s => GoValue.str s
  | GoValue.strList l => GoValue.anyStrList l
  | GoValue.anyStrList l => GoValue.anyStrList l

def roundTripMap (m : CapsMap) : CapsMap :=
  { capabilities := jsonRoundTrip m.capabilities,
    models := jsonRoundTrip m.models,
    specialization := jsonRoundTrip m.specialization }

def capabilitiesChanged (current : CapsMap) : Option CapsMap → Bool
  | none => true
  | some stored =>
    !(deepEqual current.capabilities stored.capabilities) ||
    !(deepEqual current.models stored.models) ||
    !(deepEqual current.specialization stored.specialization)

def getChangeReason (current : CapsMap) : Option CapsMap → String
  | none => "startup"
  | some stored =>
    if !(deepEqual current.models stored.models) then "model_change"
    else if !(deepEqual current.capabilities stored.capabilities) then "capability_change"
    else if !(deepEqual current.specialization stored.specialization) then "specialization_change"
    else "unknown_change"

structure CapBroadcast where
  caps : Caps
  reason : String
deriving DecidableEq, Repr

/-- One startup of `announceCapabilitiesOnChange`: `memoFile` is the memo
as last written (in memory); loading applies the JSON round trip; the
broadcast is attempted whenever the comparison reports a change, and the
memo file is rewritten only when the publish succeeded. -/
def announceCapabilitiesOnChange (current : Caps) (memoFile : Option CapsMap)
    (publishOk : Bool) : List CapBroadcast × Option CapsMap :=
  let currentMap := currentCapsMap current
  let storedCaps := memoFile.map roundTripMap
  if capabilitiesChanged currentMap storedCaps then
    if publishOk then
      ([{ caps := current, reason := getChangeReason currentMap storedCaps }],
        some currentMap)
    else
      ([{ caps := current, reason := getChangeReason currentMap storedCaps }],
        memoFile)
  else ([], memoFile)

/-- Claim C7 (code bug): the first startup broadcasts once with reason
"startup" and persists the memo, but because `reflect.DeepEqual` compares
the current `[]string` entries against the JSON-decoded `[]interface{}`
memo entries — values of different dynamic types — the comparison always
reports a change once a memo exists.  Every later startup therefore
broadcasts again even with an unchanged configuration, and the reported
reason is always "model_change" (the models comparison fires first), even
for a capabilities-only change. -/
theorem claim_C7_capability_rebroadcast_bug (c c2 : Caps) :
    announceCapabilitiesOnChange c none true =
      ([{ caps := c, reason := "startup" }], some (currentCapsMap c)) ∧
    announceCapabilitiesOnChange c (some (currentCapsMap c)) true =
      ([{ caps := c, reason := "model_change" }], some (currentCapsMap c)) ∧
    announceCapabilitiesOnChange c2 (some (currentCapsMap c)) true =
      ([{ caps := c2, reason := "model_change" }], some (currentCapsMap c2)) := by
  have second : ∀ c3 : Caps,
      announceCapabilitiesOnChange c3 (some (currentCapsMap c)) true =
        ([{ caps := c3, reason := "model_change" }], some (currentCapsMap c3)) := by
    intro c3
    simp [announceCapabilitiesOnChange, capabilitiesChanged, getChangeReason,
      currentCapsMap, roundTripMap, jsonRoundTrip, deepEqual]
  exact ⟨rfl, second c, second c2⟩

/-! ## mDNS discovery channel (unnamed/part_015: discovery package)

`HandlePeerFound` embeds `mdnsNotifee.HandlePeerFound`: the bounded
`peersChan` is a queue whose capacity is the `make(chan peer.AddrInfo, 10)`
buffer depth from `NewMDNSDiscovery`; the Go `select` sends when the buffer
has room and hits `default:` (skipping the new peer) when it is full;
`ctxDone` models the `<-n.ctx.Done()` case. -/

structure PeerAddrInfo where
  id : String
  addrs : List String
deriving DecidableEq, Repr

structure PeersChan where
  capacity : Nat
  buffer : List PeerAddrInfo
deriving DecidableEq, Repr

def NewMDNSDiscoveryChan : PeersChan := { capacity := 10, buffer := [] }

def HandlePeerFound (ctxDone : Bool) (ch : PeersChan) (pi : PeerAddrInfo) : PeersChan :=
  if ctxDone then ch
  else if ch.buffer.length < ch.capacity then { ch with buffer := ch.buffer ++ [pi] }
  else ch

def fullChanDemo : PeersChan :=
  { capacity := 10,
    buffer := [{ id := "p0", addrs := [] }, { id := "p1", addrs := [] },
      { id := "p2", addrs := [] }, { id := "p3", addrs := [] },
      { id := "p4", addrs := [] }, { id := "p5", addrs := [] },
      { id := "p6", addrs := [] }, { id := "p7", addrs := [] },
      { id := "p8", addrs := [] }, { id := "p9", addrs := [] }] }

/-- Counterexample to C9 as stated: on a full channel the newly discovered
peer is skipped — the channel is unchanged, the oldest entry is still
queued, and the new peer is nowhere in the buffer. -/
theorem claim_C9_counterexample :
    fullChanDemo.buffer.length = fullChanDemo.capacity ∧
    HandlePeerFound false fullChanDemo { id := "new", addrs := [] } = fullChanDemo ∧
    ({ id := "new", addrs := [] } : PeerAddrInfo) ∉
      (HandlePeerFound false fullChanDemo { id := "new", addrs := [] }).buffer ∧
    (HandlePeerFound false fullChanDemo { id := "new", addrs := [] }).buffer.head? =
      some { id := "p0", addrs := [] } := by
  refine ⟨by decide, by decide, by decide, by decide⟩

/-- Claim C9 (amended): when the bounded discovery channel has room the new
peer advertisement is enqueued at the tail; when it is full the new
advertisement is dropped and the queued entries (including the oldest) are
retained unchanged.  The channel created by `NewMDNSDiscovery` holds 10
entries. -/
theorem claim_C9_discovery_backpressure (ch : PeersChan) (pi : PeerAddrInfo) :
    (ch.buffer.length < ch.capacity →
      HandlePeerFound false ch pi = { ch with buffer := ch.buffer ++ [pi] }) ∧
    (ch.capacity ≤ ch.buffer.length →
      HandlePeerFound false ch pi = ch) ∧
    NewMDNSDiscoveryChan.capacity = 10 := by
  refine ⟨?_, ?_, rfl⟩
  · intro hroom
    unfold HandlePeerFound
    rw [if_neg (by simp), if_pos hroom]
  · intro hfull
    unfold HandlePeerFound
    rw [if_neg (by simp), if_neg (by omega)]

/-- Witness for C9's amended theorem: a fresh channel accepts a peer, the
full demo channel drops it. -/
theorem claim_C9_discovery_backpressure_witness :
    HandlePeerFound false NewMDNSDiscoveryChan { id := "new", addrs := [] } =
      { capacity := 10, buffer := [{ id := "new", addrs := [] }] } ∧
    HandlePeerFound false fullChanDemo { id := "p0", addrs := [] } = fullChanDemo :=
  ⟨by
    rw [(claim_C9_discovery_backpressure NewMDNSDiscoveryChan
      { id := "new", addrs := [] }).1 (by decide)]
    rfl,
   (claim_C9_discovery_backpressure fullChanDemo { id := "p0", addrs := [] }).2.1
     (by decide)⟩

/-! ## Dynamic pub/sub topics (pubsub/pubsub.go)

`JoinDynamicTopic`, `LeaveDynamicTopic` and `PublishToDynamicTopic` are
embedded over the `dynamicTopics`/`dynamicSubs` maps (name lists).  The
external gossipsub `Join`/`Subscribe` calls are modelled as succeeding;
`PublishToDynamicTopic` only reads the maps (the Go code holds a read
lock), so the state is unchanged by construction, and its result is either
the published envelope content or the Go error string. -/

structure PubSubState where
  dynamicTopics : List String
  dynamicSubs : List String
deriving DecidableEq, Repr

def NewPubSubState : PubSubState := { dynamicTopics := [], dynamicSubs := [] }

def JoinDynamicTopic (p : PubSubState) (topicName : String) : PubSubState :=
  if topicName ∈ p.dynamicTopics then p
  else
    { dynamicTopics := p.dynamicTopics ++ [topicName],
      dynamicSubs := p.dynamicSubs ++ [topicName] }

def LeaveDynamicTopic (p : PubSubState) (topicName : String) : PubSubState :=
  { dynamicTopics := p.dynamicTopics.filter (fun t => t != topicName),
    dynamicSubs := p.dynamicSubs.filter (fun t => t != topicName) }

def PublishToDynamicTopic (p : PubSubState) (topicName msgType : String)
    (data : List (String × String)) :
    Except String (String × String × List (String × String)) :=
  if topicName ∈ p.dynamicTopics then Except.ok (topicName, msgType, data)
  else Except.error ("not subscribed to dynamic topic: " ++ topicName)

inductive TopicOp where
  | join (t : String)
  | leave (t : String)
deriving DecidableEq, Repr

def applyTopicOps (p : PubSubState) : List TopicOp → PubSubState
  | [] => p
  | TopicOp.join t :: rest => applyTopicOps (JoinDynamicTopic p t) rest
  | TopicOp.leave t :: rest => applyTopicOps (LeaveDynamicTopic p t) rest

/-- The last join/leave action a history of topic operations performed on
topic `t`: `some true` for a join not followed by a leave, `some false` for
a leave not followed by a join, `none` when `t` was never touched. -/
def lastTopicAction (t : String) : List TopicOp → Option Bool
  | [] => none
  | op :: rest =>
    match lastTopicAction t rest with
    | some b => some b
    | none =>
      match op with
      | TopicOp.join u => if u = t then some true else none
      | TopicOp.leave u => if u = t then some false else none

theorem lastTopicAction_cons (t : String) (op : TopicOp) (rest : List TopicOp) :
    lastTopicAction t (op :: rest) =
      match lastTopicAction t rest with
      | some b => some b
      | none =>
        match op with
        | TopicOp.join u => if u = t then some true else none
        | TopicOp.leave u => if u = t then some false else none := rfl

theorem mem_JoinDynamicTopic (p : PubSubState) (u t : String) :
    t ∈ (JoinDynamicTopic p u).dynamicTopics ↔ (t = u ∨ t ∈ p.dynamicTopics) := by
  unfold JoinDynamicTopic
  split <;> rename_i hmem
  · constructor
    · intro h
      exact Or.inr h
    · rintro (rfl | h)
      · exact hmem
      · exact h
  · simp [List.mem_append]
    exact or_comm

theorem mem_LeaveDynamicTopic (p : PubSubState) (u t : String) :
    t ∈ (LeaveDynamicTopic p u).dynamicTopics ↔ (t ∈ p.dynamicTopics ∧ ¬ t = u) := by
  unfold LeaveDynamicTopic
  simp [List.mem_filter, bne_iff_ne]

theorem mem_applyTopicOps (ops : List TopicOp) :
    ∀ (p : PubSubState) (t : String),
      t ∈ (applyTopicOps p ops).dynamicTopics ↔
        (lastTopicAction t ops = some true ∨
          (lastTopicAction t ops = none ∧ t ∈ p.dynamicTopics)) := by
  induction ops with
  | nil =>
    intro p t
    simp [applyTopicOps, lastTopicAction]
  | cons op rest ih =>
    intro p t
    cases op with
    | join u =>
      rw [show applyTopicOps p (TopicOp.join u :: rest) =
        applyTopicOps (JoinDynamicTopic p u) rest from rfl]
      rw [ih (JoinDynamicTopic p u) t, lastTopicAction_cons]
      cases hrest : lastTopicAction t rest with
      | some b =>
        simp [hrest]
      | none =>
        simp only [hrest]
        rw [mem_JoinDynamicTopic]
        by_cases hu : u = t
        · subst hu
          simp
        · rw [if_neg hu]
          simp [Ne.symm hu]
    | leave u =>
      rw [show applyTopicOps p (TopicOp.leave u :: rest) =
        applyTopicOps (LeaveDynamicTopic p u) rest from rfl]
      rw [ih (LeaveDynamicTopic p u) t, lastTopicAction_cons]
      cases hrest : lastTopicAction t rest with
      | some b =>
        simp [hrest]
      | none =>
        simp only [hrest]
        rw [mem_LeaveDynamicTopic]
        by_cases hu : u = t
        · subst hu
          simp
        · rw [if_neg hu]
          simp [Ne.symm hu]

/-- Claim C10: publishing to a dynamic topic that is not currently joined
returns the "not subscribed" error and publishes nothing (the function only
reads the topic maps, so joined topics and subscriptions are unchanged by
construction); publishing succeeds, emitting exactly the given envelope
content, precisely when the topic is currently joined — that is, for any
history of join/leave operations from a fresh pub/sub state, exactly when
the last operation touching the topic was a join. -/
theorem claim_C10_dynamic_topic_publish (t msgType : String)
    (data : List (String × String)) :
    (∀ p : PubSubState, t ∉ p.dynamicTopics →
        PublishToDynamicTopic p t msgType data =
          Except.error ("not subscribed to dynamic topic: " ++ t)) ∧
    (∀ p : PubSubState, t ∈ p.dynamicTopics →
        PublishToDynamicTopic p t msgType data = Except.ok (t, msgType, data)) ∧
    (∀ ops : List TopicOp,
        PublishToDynamicTopic (applyTopicOps NewPubSubState ops) t msgType data =
            Except.ok (t, msgType, data) ↔
          lastTopicAction t ops = some true) := by
  refine ⟨?_, ?_, ?_⟩
  · intro p hmem
    unfold PublishToDynamicTopic
    rw [if_neg hmem]
  · intro p hmem
    unfold PublishToDynamicTopic
    rw [if_pos hmem]
  · intro ops
    have hmem := mem_applyTopicOps ops NewPubSubState t
    simp only [NewPubSubState, List.not_mem_nil, and_false, or_false] at hmem
    unfold PublishToDynamicTopic
    by_cases hin : t ∈ (applyTopicOps NewPubSubState ops).dynamicTopics
    · rw [if_pos hin]
      constructor
      · intro _
        exact hmem.mp hin
      · intro _
        rfl
    · rw [if_neg hin]
      constructor
      · intro h
        cases h
      · intro h
        exact absurd (hmem.mpr h) hin

/-- Witness for C10: a join/leave/join history on one topic and a foreign
topic that was never joined. -/
theorem claim_C10_dynamic_topic_publish_witness :
    PublishToDynamicTopic
        (applyTopicOps NewPubSubState
          [TopicOp.join "bzzz/meta/issue/7", TopicOp.leave "bzzz/meta/issue/7",
           TopicOp.join "bzzz/meta/issue/7"])
        "bzzz/meta/issue/7" "task_help_request" [("reason", "stuck")] =
      Except.ok ("bzzz/meta/issue/7", "task_help_request", [("reason", "stuck")]) ∧
    PublishToDynamicTopic NewPubSubState "bzzz/meta/issue/9" "task_help_request" [] =
      Except.error ("not subscribed to dynamic topic: " ++ "bzzz/meta/issue/9") :=
  ⟨((claim_C10_dynamic_topic_publish "bzzz/meta/issue/7" "task_help_request"
      [("reason", "stuck")]).2.2
      [TopicOp.join "bzzz/meta/issue/7", TopicOp.leave "bzzz/meta/issue/7",
       TopicOp.join "bzzz/meta/issue/7"]).mpr (by decide),
   (claim_C10_dynamic_topic_publish "bzzz/meta/issue/9" "task_help_request" []).1
     NewPubSubState (by decide)⟩

/-- Claim C4: `shouldEscalate response history` returns true exactly when the
lowercased response contains one of the six escalation keywords, or the
history holds at least 10 entries. -/
theorem claim_C4_shouldEscalate (response : String) (history : List String) :
    shouldEscalate response history = true ↔
      (containsSubstring (toLowerGo response) "stuck" = true ∨
       containsSubstring (toLowerGo response) "help" = true ∨
       containsSubstring (toLowerGo response) "human" = true ∨
       containsSubstring (toLowerGo response) "escalate" = true ∨
       containsSubstring (toLowerGo response) "clarification needed" = true ∨
       containsSubstring (toLowerGo response) "manual intervention" = true) ∨
      history.length ≥ 10 := by
  unfold shouldEscalate escalationKeywords conversationHistoryLimit
  simp only [List.any_cons, List.any_nil, Bool.or_false, Bool.or_eq_true]
  split <;> rename_i h1
  · simp only [true_iff]
    tauto
  · split <;> rename_i h2
    · simp only [true_iff]
      tauto
    · simp only [Bool.false_eq_true, false_iff]
      push_neg at h1 ⊢
      refine ⟨?_, by omega⟩
      tauto

end Bzzz
